import Mathlib

/-
Verification of the portion and quantity resolution core of the
HealthNutritionTracker repository.

Embedding conventions:
- Python strings are modelled as `List Char` (named `Str` below); Python
  `str.lower()` is modelled by ASCII lowercasing, which is exact on every
  string the sources handle.
- Python floats are modelled by the exact rationals `ℚ`; all arithmetic in
  the modelled code paths is multiplication and division, so the rational
  model tracks the intended real-number semantics of the sources.
- Python dicts are modelled as association lists in insertion order:
  `get` returns the first binding, `set` replaces the first binding in
  place or appends a new one at the end, matching dict semantics.
- The function `find_alt_portions_for_name` (network backed alternate food
  search, nutrition/services/portions.py) and the parameter
  `grams_from_local_registry_fn` (reads data/unit_conversions.json, a data
  file that is not part of the sources) are modelled as explicit function
  parameters `alt` and `reg`, mirroring how the source itself parametrises
  `grams_from_qty_text` over the registry function.
-/

abbrev Str := List Char

def cs (s : String) : Str := s.toList

/-- ASCII lowercase of one character, the case the sources exercise. -/
def lowerChar (c : Char) : Char :=
  if 'A' ≤ c ∧ c ≤ 'Z' then Char.ofNat (c.toNat + 32) else c

def lowerStr (s : Str) : Str := s.map lowerChar

def isSpaceChar (c : Char) : Bool :=
  c = ' ' ∨ c = '\t' ∨ c = '\n' ∨ c = '\r'

def trimL (s : Str) : Str := s.dropWhile isSpaceChar

def trimR (s : Str) : Str := (s.reverse.dropWhile isSpaceChar).reverse

/-- Python `str.strip()`. -/
def trimBoth (s : Str) : Str := trimR (trimL s)

/-- Python `str.rstrip("s")`: drop every trailing letter s. -/
def rstripS (s : Str) : Str := (s.reverse.dropWhile (fun c => c = 's')).reverse

/-- Replace en and em dashes by a hyphen (quantity text normalisation). -/
def dashFix (s : Str) : Str :=
  s.map (fun c => if c = '–' ∨ c = '—' then '-' else c)

/-- Worker for whitespace collapsing; the flag records whether the scan is
inside a whitespace run whose single replacement space was already emitted. -/
def collapseGo : Bool → Str → Str
  | _, [] => []
  | inRun, c :: rest =>
    if isSpaceChar c then
      if inRun then collapseGo true rest else ' ' :: collapseGo true rest
    else c :: collapseGo false rest

/-- Python `re.sub(r"\s+", " ", s)`: collapse each maximal whitespace run to one space. -/
def collapseWs (s : Str) : Str := collapseGo false s

/-- First element satisfying a decidable predicate (Python linear scan). -/
def firstSuch (p : α → Prop) [DecidablePred p] : List α → Option α
  | [] => Option.none
  | x :: xs => if p x then some x else firstSuch p xs

/-- First mapped value that is `some` (Python loop with early return). -/
def firstVal (f : α → Option β) : List α → Option β
  | [] => Option.none
  | x :: xs => match f x with
    | some b => some b
    | Option.none => firstVal f xs

/-- Value of the first binding of a key in an association list (dict get). -/
def lookupQ (k : Str) (m : List (Str × ℚ)) : Option ℚ :=
  (firstSuch (fun kv : Str × ℚ => kv.1 = k) m).map (fun kv => kv.2)

/-- Decides whether `pre` is a prefix of `s`. -/
def leadsWith : Str → Str → Bool
  | [], _ => true
  | _ :: _, [] => false
  | a :: pre, b :: s => a = b ∧ leadsWith pre s

/-- Decides whether `needle` occurs as a contiguous substring of `hay`. -/
def substrOf : Str → Str → Bool
  | nd, [] => leadsWith nd []
  | nd, c :: rest => leadsWith nd (c :: rest) ∨ substrOf nd rest

/-- Regex word character class `\w` over ASCII. -/
def isWordChar (c : Char) : Bool := c.isAlphanum ∨ c = '_'

def boundaryBefore : Option Char → Bool
  | Option.none => true
  | some c => !isWordChar c

def boundaryAfter : Str → Bool
  | [] => true
  | c :: _ => !isWordChar c

def phraseAt (w s : Str) : Bool := leadsWith w s ∧ boundaryAfter (s.drop w.length)

/-- Search for phrase `w` delimited by `\b` on both sides, scanning `s`
with `prev` the character just before the current position. -/
def phraseFrom (w : Str) : Option Char → Str → Bool
  | prev, [] => boundaryBefore prev ∧ phraseAt w []
  | prev, c :: rest =>
    (boundaryBefore prev ∧ phraseAt w (c :: rest)) ∨ phraseFrom w (some c) rest

/-- Python `re.search` for a pattern of the form `\b…\b` with literal body `w`. -/
def hasPhrase (w n : Str) : Bool := phraseFrom w Option.none n

/-- ASCII apostrophe, written by code point to keep it out of the source text. -/
def apos : Char := Char.ofNat 39

/-! Data model (spec section 3). `gramWeight` is a plain rational because every
constructor in the sources (recipe_portions, the wiftee loader, the derived
clones) stores a numeric gram weight. -/

structure PortionEntry where
  id : Str
  label : Str
  unit : Str
  gramWeight : ℚ
  amount : Option ℚ
deriving DecidableEq, Repr

/-! Translations from nutrition/services/portions.py. -/

/-- Synonym table of portions.py, portion_match_from_labels. -/
def UNIT_SYNONYMS : List (Str × List Str) :=
  [ (cs "clove", [cs "clove", cs "cloves"])
  , (cs "cup", [cs "cup", cs "cups"])
  , (cs "tbsp", [cs "tbsp", cs "tablespoon", cs "tablespoons"])
  , (cs "tsp", [cs "tsp", cs "teaspoon", cs "teaspoons"])
  , (cs "pound", [cs "lb", cs "lbs", cs "pound", cs "pounds"])
  , (cs "ounce", [cs "oz", cs "ounce", cs "ounces"])
  , (cs "whole", [cs "whole", cs "each", cs "piece"])
  , (cs "undetermined", [cs "undetermined"]) ]

/-- Candidate spellings for a normalised unit: the unit itself plus every
synonym group the unit belongs to (the groups are pairwise disjoint, so at
most one fires). Mirrors the cands set built in portion_match_from_labels. -/
def candidateSet (u : Str) : List Str :=
  UNIT_SYNONYMS.foldl
    (fun acc g => if u = g.1 ∨ u ∈ g.2 then acc ++ g.1 :: g.2 else acc) [u]

/-- portions.py, portion_match_from_labels (lines 53 to 77). -/
def portion_match_from_labels (portions : List PortionEntry) (user_unit : Str) :
    Option PortionEntry :=
  if user_unit = [] ∨ portions = [] then Option.none
  else
    match firstSuch
        (fun p : PortionEntry => p.unit ∈ candidateSet (lowerStr (trimBoth user_unit)))
        portions with
    | some p => some p
    | Option.none =>
      firstSuch
        (fun p : PortionEntry =>
          ∃ c ∈ candidateSet (lowerStr (trimBoth user_unit)),
            substrOf c (lowerStr p.label) = true)
        portions

/-- Digit string to natural number. -/
def digitsVal (ds : Str) : Nat := ds.foldl (fun a c => a * 10 + (c.toNat - 48)) 0

/-- Parse the regex group `\d+(?:\.\d+)?` at the start of `s`; returns the
parsed value and the unconsumed rest. The regex quantifiers are greedy and
nothing the callers match afterwards can consume a digit, so the greedy
parse coincides with the regex semantics. -/
def parseNum (s : Str) : Option (ℚ × Str) :=
  let ds := s.takeWhile Char.isDigit
  let rest := s.dropWhile Char.isDigit
  if ds = [] then Option.none
  else
    match rest with
    | '.' :: r2 =>
      let fs := r2.takeWhile Char.isDigit
      let r3 := r2.dropWhile Char.isDigit
      if fs = [] then some ((digitsVal ds : ℚ), rest)
      else some ((digitsVal ds : ℚ) + (digitsVal fs : ℚ) / (10 : ℚ) ^ fs.length, r3)
    | _ => some ((digitsVal ds : ℚ), rest)

/-- Build the id suffix for derived entries. -/
def natToChars (n : Nat) : Str := Nat.toDigits 10 n

/-- The clone helper inside derive_common_volumes_simple; `idx` is the length
of the output list at the moment of the append. -/
def cloneEntry (new_unit : Str) (grams : ℚ) (idx : Nat) : PortionEntry :=
  { id := cs "der-" ++ new_unit ++ cs "-" ++ natToChars idx
  , label := cs "1 " ++ new_unit ++ cs " (derived)"
  , gramWeight := grams
  , unit := new_unit
  , amount := some 1 }

/-- portions.py, derive_common_volumes_simple (lines 32 to 51). -/
def derive_common_volumes_simple (portions : List PortionEntry) : List PortionEntry :=
  match firstSuch (fun p : PortionEntry => p.unit = cs "tablespoon" ∨ p.unit = cs "tbsp") portions with
  | some t =>
    portions ++
      [ cloneEntry (cs "tsp") (t.gramWeight / 3) portions.length
      , cloneEntry (cs "cup") (t.gramWeight * 16) (portions.length + 1) ]
  | Option.none =>
    match firstSuch (fun p : PortionEntry => p.unit = cs "teaspoon" ∨ p.unit = cs "tsp") portions with
    | some t => portions ++ [cloneEntry (cs "tbsp") (t.gramWeight * 3) portions.length]
    | Option.none => portions

/-! Translations from nutrition/services/quantity_parser.py. -/

/-- Heuristic per food name patterns, each a decidable predicate standing for
the regex of FALLBACK_TYPICAL_WEIGHTS. The name these run on has been
lowercased and whitespace collapsed, so `\s*` is an optional single space
and `\s+` is a single space. -/
def crackersPred (n : Str) : Bool :=
  hasPhrase (cs "cracker") n ∨ hasPhrase (cs "crackers") n ∨
  ((([cs "crisp", cs "crisp" ++ [apos], cs "crispn", cs "crisp" ++ [apos, 'n']] : List Str).any
    (fun pre => hasPhrase (pre ++ cs "light") n ∨ hasPhrase (pre ++ cs " light") n)) : Bool) ∨
  hasPhrase (cs "saltine") n ∨ hasPhrase (cs "saltines") n ∨ hasPhrase (cs "ritz") n

def garlicPred (n : Str) : Bool := hasPhrase (cs "garlic") n

def tomatoRomaPred (n : Str) : Bool :=
  hasPhrase (cs "tomato,roma") n ∨ hasPhrase (cs "tomato, roma") n ∨
  hasPhrase (cs "roma tomato") n

def tomatoPred (n : Str) : Bool := hasPhrase (cs "tomato") n

def onionPred (n : Str) : Bool := hasPhrase (cs "onion") n

def pepperonciniPred (n : Str) : Bool := hasPhrase (cs "pepperoncini") n

def chickenThighPred (n : Str) : Bool := hasPhrase (cs "chicken thigh") n

/-- quantity_parser module, FALLBACK_TYPICAL_WEIGHTS (lines 17 to 39). -/
def FALLBACK_TYPICAL_WEIGHTS : List ((Str → Bool) × List (Str × ℚ)) :=
  [ (crackersPred, [(cs "cracker", 4), (cs "crackers", 4), (cs "piece", 4)])
  , (garlicPred, [(cs "clove", 3), (cs "whole", 3), (cs "tbsp", 17/2), (cs "tsp", 14/5)])
  , (tomatoRomaPred, [(cs "whole", 62), (cs "cup", 180)])
  , (tomatoPred, [(cs "whole", 123), (cs "cup", 180)])
  , (onionPred, [(cs "whole", 110), (cs "cup", 160)])
  , (pepperonciniPred, [(cs "whole", 10)])
  , (chickenThighPred, [(cs "whole", 80)]) ]

/-- quantity_parser module, typical_grams_for_unit (lines 41 to 50): scan the
table; on a name match look the unit up and keep scanning when the unit is
absent from that row. -/
def typical_grams_for_unit (name unit : Str) : Option ℚ :=
  firstVal
    (fun pu =>
      if pu.1 (collapseWs (lowerStr (trimBoth name))) then
        lookupQ (rstripS (lowerStr (trimBoth unit))) pu.2
      else Option.none)
    FALLBACK_TYPICAL_WEIGHTS

/-- Generic volume approximations of guess_grams_from_unit. -/
def GENERIC_VOL : List (Str × ℚ) := [(cs "cup", 240), (cs "tbsp", 15), (cs "tsp", 5)]

/-- quantity_parser module, guess_grams_from_unit (lines 52 to 80);
`alt` stands for find_alt_portions_for_name. -/
def guess_grams_from_unit (name unit : Str) (qty : ℚ) (portions : List PortionEntry)
    (alt : Str → List PortionEntry) : ℚ :=
  match (if portions ≠ [] then portion_match_from_labels portions unit else Option.none) with
  | some p => p.gramWeight * qty
  | Option.none =>
    match typical_grams_for_unit name unit with
    | some w => w * qty
    | Option.none =>
      match (if alt name ≠ [] then portion_match_from_labels (alt name) unit else Option.none) with
      | some p => p.gramWeight * qty
      | Option.none =>
        match lookupQ (lowerStr (trimBoth unit)) GENERIC_VOL with
        | some v => v * qty
        | Option.none => 0

/-- Priority order of quantity_parser pick_default_unit. -/
def priorityUnits : List Str :=
  [cs "cracker", cs "slice", cs "cup", cs "tbsp", cs "tsp", cs "whole", cs "piece"]

/-- Lowercased units of the entries having a nonempty unit (the units set of
pick_default_unit). -/
def tableUnits (portions : List PortionEntry) : List Str :=
  (portions.filter (fun p => p.unit ≠ [])).map (fun p => lowerStr p.unit)

/-- quantity_parser module, pick_default_unit (lines 82 to 102). -/
def pick_default_unit (portions : List PortionEntry) : Option Str :=
  match firstSuch (fun u : Str => u ∈ tableUnits portions) priorityUnits with
  | some u => some u
  | Option.none =>
    firstSuch (fun u : Str => u ≠ []) (portions.map (fun p => lowerStr p.unit))

/-- Unit synonym map of grams_from_qty_text. -/
def UNIT_MAP : List (Str × Str) :=
  [ (cs "tablespoon", cs "tbsp"), (cs "tbsp", cs "tbsp"), (cs "tbs", cs "tbsp")
  , (cs "teaspoon", cs "tsp"), (cs "tsp", cs "tsp")
  , (cs "cups", cs "cup"), (cs "cup", cs "cup")
  , (cs "cloves", cs "clove"), (cs "clove", cs "clove")
  , (cs "pieces", cs "piece"), (cs "piece", cs "piece")
  , (cs "ounces", cs "oz"), (cs "ounce", cs "oz"), (cs "oz", cs "oz")
  , (cs "pounds", cs "lb"), (cs "pound", cs "lb"), (cs "lb", cs "lb"), (cs "lbs", cs "lb")
  , (cs "g", cs "g"), (cs "gram", cs "g"), (cs "grams", cs "g")
  , (cs "slice", cs "slice"), (cs "slices", cs "slice")
  , (cs "cracker", cs "cracker"), (cs "crackers", cs "cracker")
  , (cs "whole", cs "whole") ]

def unitMapGet (w : Str) : Str :=
  match firstSuch (fun kv : Str × Str => kv.1 = w) UNIT_MAP with
  | some kv => kv.2
  | Option.none => w

/-- Input normalisation of grams_from_qty_text: strip, lowercase, en and em
dashes to hyphen, collapse whitespace runs. -/
def normText (t : Str) : Str := collapseWs (dashFix (lowerStr (trimBoth t)))

/-- Pattern 1: `^(\d+(?:\.\d+)?)\s*g$`. -/
def matchNumG (s : Str) : Option ℚ :=
  match parseNum s with
  | some (v, r) => if r.dropWhile isSpaceChar = ['g'] then some v else Option.none
  | Option.none => Option.none

/-- Pattern 2: `^(\d+(?:\.\d+)?)$`. -/
def matchPureNum (s : Str) : Option ℚ :=
  match parseNum s with
  | some (v, r) => if r = [] then some v else Option.none
  | Option.none => Option.none

/-- Pattern 4: `^(\d+(?:\.\d+)?)\s*/+$`. -/
def matchNumSlashes (s : Str) : Option ℚ :=
  match parseNum s with
  | some (v, r) =>
    if r.dropWhile isSpaceChar ≠ [] ∧ ∀ c ∈ r.dropWhile isSpaceChar, c = '/' then some v
    else Option.none
  | Option.none => Option.none

def isAsciiAlpha (c : Char) : Bool :=
  ('a' ≤ c ∧ c ≤ 'z') ∨ ('A' ≤ c ∧ c ≤ 'Z')

/-- Pattern 5: `^(\d+(?:\.\d+)?)\s*([a-zA-Z]+)$`; returns the number and the word. -/
def matchNumWord (s : Str) : Option (ℚ × Str) :=
  match parseNum s with
  | some (v, r) =>
    if r.dropWhile isSpaceChar ≠ [] ∧ ∀ c ∈ r.dropWhile isSpaceChar, isAsciiAlpha c = true then
      some (v, r.dropWhile isSpaceChar)
    else Option.none
  | Option.none => Option.none

/-- Common branch of patterns 2, 3 and 4 of grams_from_qty_text: resolve
`qty` of the default unit, falling back to the local registry function. -/
def defaultUnitResolve (name : Str) (portions : List PortionEntry)
    (alt : Str → List PortionEntry) (reg : Str → Str → ℚ → ℚ) (qty : ℚ) :
    ℚ × Str × ℚ :=
  let unit := (pick_default_unit portions).getD (cs "whole")
  let g0 := guess_grams_from_unit name unit qty portions alt
  let g1 := if g0 ≤ 0 then reg name unit qty else g0
  (g1, unit, qty)

/-- quantity_parser module, grams_from_qty_text (lines 104 to 189). Returns
(grams, used unit, used qty). -/
def grams_from_qty_text (name text : Str) (portions : List PortionEntry)
    (alt : Str → List PortionEntry) (reg : Str → Str → ℚ → ℚ) : ℚ × Str × ℚ :=
  if normText text = [] then (0, [], 0)
  else
    match matchNumG (normText text) with
    | some g => (g, cs "g", g)
    | Option.none =>
      match matchPureNum (normText text) with
      | some q => defaultUnitResolve name portions alt reg q
      | Option.none =>
        if normText text ≠ [] ∧ ∀ c ∈ normText text, c = '/' then
          defaultUnitResolve name portions alt reg ((normText text).length : ℚ)
        else
          match matchNumSlashes (normText text) with
          | some q => defaultUnitResolve name portions alt reg q
          | Option.none =>
            match matchNumWord (normText text) with
            | some (q, w) =>
              let unit := unitMapGet w
              let g0 := guess_grams_from_unit name unit q portions alt
              let g1 := if g0 ≤ 0 then reg name unit q else g0
              let g2 :=
                if g1 ≤ 0 ∧ unit = cs "lb" then q * (453592/1000 : ℚ)
                else if g1 ≤ 0 ∧ unit = cs "oz" then q * (283495/10000 : ℚ)
                else g1
              (g2, unit, q)
            | Option.none => (0, [], 0)

/-- Alternate food search returning nothing, the behaviour when the search
yields no portioned record. -/
def noAlt : Str → List PortionEntry := fun _ => []

/-- Local registry returning no weight, the behaviour of
grams_from_local_registry when data/unit_conversions.json is absent, as in
this repository. -/
def noReg : Str → Str → ℚ → ℚ := fun _ _ _ => 0

/-! Spec side reformulation used by claim C1: the fallback chain as the spec
words it, namely the first tier producing a positive gram weight wins and a
later tier is consulted only when every earlier one produced none. -/

/-- Gram weight produced by a same table portion match tier, 0 when the tier
produces nothing. -/
def tierPortion (portions : List PortionEntry) (unit : Str) (qty : ℚ) : ℚ :=
  ((portion_match_from_labels portions unit).map (fun p => p.gramWeight * qty)).getD 0

/-- Gram weight produced by the per food name heuristic tier. -/
def tierTypical (name unit : Str) (qty : ℚ) : ℚ :=
  ((typical_grams_for_unit name unit).map (fun w => w * qty)).getD 0

/-- Gram weight produced by the generic volumetric constants tier. -/
def tierGeneric (unit : Str) (qty : ℚ) : ℚ :=
  ((lookupQ (lowerStr (trimBoth unit)) GENERIC_VOL).map (fun v => v * qty)).getD 0

def fallbackChainSpec (name unit : Str) (qty : ℚ) (portions : List PortionEntry)
    (alt : Str → List PortionEntry) : ℚ :=
  if 0 < tierPortion portions unit qty then tierPortion portions unit qty
  else if 0 < tierTypical name unit qty then tierTypical name unit qty
  else if 0 < tierPortion (alt name) unit qty then tierPortion (alt name) unit qty
  else if 0 < tierGeneric unit qty then tierGeneric unit qty
  else 0

/-! Spec side reformulations used by claim C6. -/

/-- Unit resolution as claim C6 words it, including the trailing s strip the
claim attributes to the function. -/
def portion_match_claimed (portions : List PortionEntry) (user_unit : Str) :
    Option PortionEntry :=
  match firstSuch
      (fun p : PortionEntry =>
        p.unit ∈ candidateSet (rstripS (lowerStr (trimBoth user_unit))))
      portions with
  | some p => some p
  | Option.none =>
    firstSuch
      (fun p : PortionEntry =>
        ∃ c ∈ candidateSet (rstripS (lowerStr (trimBoth user_unit))),
          substrOf c (lowerStr p.label) = true)
      portions

/-- Unit resolution as amended: lowercase normalisation only (no trailing s
strip), and an empty unit resolves to nothing. -/
def portion_match_specAmended (portions : List PortionEntry) (user_unit : Str) :
    Option PortionEntry :=
  if user_unit = [] then Option.none
  else
    match firstSuch
        (fun p : PortionEntry =>
          p.unit ∈ candidateSet (lowerStr (trimBoth user_unit)))
        portions with
    | some p => some p
    | Option.none =>
      firstSuch
        (fun p : PortionEntry =>
          ∃ c ∈ candidateSet (lowerStr (trimBoth user_unit)),
            substrOf c (lowerStr p.label) = true)
        portions

/-- Default unit as consumed by grams_from_qty_text: pick_default_unit with
the final `or "whole"` applied at every call site. -/
def chooseDefaultUnit (portions : List PortionEntry) : Str :=
  (pick_default_unit portions).getD (cs "whole")

/-! Nutrient bags (nutrition/services/nutrients.py). Python values living in
a nutrient dict are numbers, strings or None. -/

inductive PyVal where
  | num (q : ℚ)
  | str (s : Str)
  | null
deriving DecidableEq, Repr

abbrev Bag := List (Str × PyVal)

/-- Dict get: value of the first binding. -/
def dget (d : Bag) (k : Str) : Option PyVal :=
  (firstSuch (fun kv : Str × PyVal => kv.1 = k) d).map (fun kv => kv.2)

/-- Dict membership test (Python `k in n`). -/
def dhas (d : Bag) (k : Str) : Bool := (dget d k).isSome

/-- Dict set: replace the first binding in place, else append. -/
def dset (d : Bag) (k : Str) (v : PyVal) : Bag :=
  match d with
  | [] => [(k, v)]
  | kv :: rest => if kv.1 = k then (k, v) :: rest else kv :: dset rest k v

/-- Python truthiness of an optional dict value (`if not n.get(k)`). -/
def truthyV : Option PyVal → Bool
  | Option.none => false
  | some (.num q) => q ≠ 0
  | some (.str s) => s ≠ []
  | some .null => false

/-- Python `float(...)` on the decimal literals the sources meet: optional
sign, digits with an optional fractional part (no exponent forms, which the
data never contains). Returns nothing when the coercion raises. -/
def parseFloat (s : Str) : Option ℚ :=
  let t := trimBoth s
  let core := fun (sgn : ℚ) (t1 : Str) =>
    let ds := t1.takeWhile Char.isDigit
    let r1 := t1.dropWhile Char.isDigit
    match r1 with
    | [] => if ds = [] then Option.none else some (sgn * (digitsVal ds : ℚ))
    | '.' :: r2 =>
      let fs := r2.takeWhile Char.isDigit
      let r3 := r2.dropWhile Char.isDigit
      if r3 ≠ [] then Option.none
      else if ds = [] ∧ fs = [] then Option.none
      else some (sgn * ((digitsVal ds : ℚ) + (digitsVal fs : ℚ) / (10 : ℚ) ^ fs.length))
    | _ => Option.none
  match t with
  | '-' :: t1 => core (-1) t1
  | '+' :: t1 => core 1 t1
  | _ => core 1 t

/-- Python `float(v)` on a dict value; nothing when it raises. -/
def floatOf : PyVal → Option ℚ
  | .num q => some q
  | .str s => parseFloat s
  | .null => Option.none

/-- Python `v or 0` then `float(...)`, with an except branch giving 0.0: the
coercion used throughout normalize_per100. -/
def coerceOrZero (v : PyVal) : ℚ :=
  if truthyV (some v) then (floatOf v).getD 0 else 0

def ENERGY_KEYS_KCAL : List Str :=
  [cs "Calories", cs "Energy (kcal)", cs "Energy", cs "calories", cs "Energy kcal"]

def ENERGY_KEYS_KJ : List Str :=
  [cs "Energy (kJ)", cs "Energy (kj)", cs "kJ", cs "Kilojoules"]

/-- Check `v not in (None, "", "NA")`. -/
def notNA : PyVal → Bool
  | .null => false
  | .str s => ¬(s = [] ∨ s = cs "NA")
  | .num _ => true

/-- First key whose value passes the NA check and coerces to float; a value
that fails the coercion is skipped (the except/pass in the source). -/
def firstUsable (keys : List Str) (n : Bag) : Option ℚ :=
  firstVal
    (fun k => match dget n k with
      | some v => if notNA v = true then floatOf v else Option.none
      | Option.none => Option.none)
    keys

/-- Conversion factor 4.184 kcal per kJ. -/
def kJfactor : ℚ := 4184/1000

/-- nutrients.py, _coerce_calories_from_usda (lines 9 to 27). -/
def coerce_calories_from_usda (n : Bag) : ℚ :=
  match firstUsable ENERGY_KEYS_KCAL n with
  | some q => q
  | Option.none =>
    match firstUsable ENERGY_KEYS_KJ n with
    | some q => q / kJfactor
    | Option.none => 0

/-- One synonym adoption block of normalize_per100: when the canonical key is
absent, adopt the first present alternate, coerced with a zero fallback. -/
def synCopy (n : Bag) (canon : Str) (alts : List Str) : Bag :=
  if dhas n canon = true then n
  else
    match firstSuch (fun k : Str => dhas n k = true) alts with
    | some k => dset n canon (.num (coerceOrZero ((dget n k).getD .null)))
    | Option.none => n

/-- One step of the final loop of normalize_per100 forcing a key numeric. -/
def forceNum (n : Bag) (k : Str) : Bag :=
  dset n k (.num (coerceOrZero ((dget n k).getD (.num 0))))

/-- The canonical key set forced numeric at the end of normalize_per100. -/
def wantedKeys : List Str :=
  [ cs "Sodium", cs "Potassium", cs "Phosphorus", cs "Calcium", cs "Magnesium"
  , cs "Protein", cs "Carbs", cs "Fat", cs "Sat Fat", cs "Mono Fat", cs "Poly Fat"
  , cs "Sugar", cs "Iron", cs "Calories" ]

/-- The Calories block of normalize_per100: when the stored Calories value is
falsy, recompute it from the energy aliases. -/
def calStep (n : Bag) : Bag :=
  if truthyV (dget n (cs "Calories")) then n
  else dset n (cs "Calories") (.num (coerce_calories_from_usda n))

/-- The synonym adoption blocks of normalize_per100, in source order. -/
def SYN_BLOCKS : List (Str × List Str) :=
  [ (cs "Carbs", [cs "Carbohydrate, by difference", cs "Carbohydrate", cs "Carbohydrates"])
  , (cs "Fat", [cs "Total lipid (fat)", cs "Total Fat"])
  , (cs "Sat Fat", [cs "Fatty acids, total saturated", cs "Saturated Fat"])
  , (cs "Mono Fat", [cs "Fatty acids, total monounsaturated"])
  , (cs "Poly Fat", [cs "Fatty acids, total polyunsaturated"])
  , (cs "Sugar", [cs "Sugars, total including NLEA", cs "Sugars, total", cs "Sugar"])
  , (cs "Sodium", [cs "Sodium, Na"])
  , (cs "Potassium", [cs "Potassium, K"])
  , (cs "Calcium", [cs "Calcium, Ca"])
  , (cs "Magnesium", [cs "Magnesium, Mg"])
  , (cs "Iron", [cs "Iron, Fe"])
  , (cs "Phosphorus", [cs "Phosphorus, P"]) ]

def synAll (n : Bag) : Bag := SYN_BLOCKS.foldl (fun m b => synCopy m b.1 b.2) n

/-- nutrients.py, normalize_per100 (lines 29 to 106): Calories block, then
the synonym blocks, then the loop forcing every canonical key numeric. -/
def normalize_per100 (n0 : Bag) : Bag :=
  wantedKeys.foldl forceNum (synAll (calStep n0))

/-! Scaling engine (app.py, _nutrients_for_grams, lines 361 to 368). -/

/-- Scale a per 100 gram bag to `grams`; a value whose float coercion raises
becomes 0.0. -/
def nutrients_for_grams (per100 : Bag) (grams : ℚ) : Bag :=
  per100.map
    (fun kv =>
      (kv.1, PyVal.num (match floatOf kv.2 with
        | some q => q * grams / 100
        | Option.none => 0)))

/-- Embed an all numeric nutrient bag (the NutrientBag of the spec data
model) into the Python value model. -/
def toDict (b : List (Str × ℚ)) : Bag := b.map (fun kv => (kv.1, PyVal.num kv.2))

/-- Element wise sum of two bags sharing one key structure. -/
def addBags (a b : Bag) : Bag :=
  List.zipWith
    (fun (x y : Str × PyVal) =>
      (x.1, PyVal.num ((floatOf x.2).getD 0 + (floatOf y.2).getD 0)))
    a b

/-! Helper lemmas about the scanning and dict primitives. -/

theorem firstSuch_mem {p : α → Prop} [DecidablePred p] {l : List α} {a : α}
    (h : firstSuch p l = some a) : a ∈ l := by
  induction l with
  | nil => simp [firstSuch] at h
  | cons x xs ih =>
    by_cases hx : p x
    · simp [firstSuch, hx] at h
      simp [h]
    · simp [firstSuch, hx] at h
      exact List.mem_cons_of_mem _ (ih h)

theorem firstSuch_prop {p : α → Prop} [DecidablePred p] {l : List α} {a : α}
    (h : firstSuch p l = some a) : p a := by
  induction l with
  | nil => simp [firstSuch] at h
  | cons x xs ih =>
    by_cases hx : p x
    · simp [firstSuch, hx] at h
      exact h ▸ hx
    · simp [firstSuch, hx] at h
      exact ih h

theorem firstSuch_map {p : β → Prop} [DecidablePred p] (f : α → β) (l : List α) :
    firstSuch p (l.map f) = (firstSuch (fun a => p (f a)) l).map f := by
  induction l with
  | nil => rfl
  | cons x xs ih =>
    by_cases hx : p (f x) <;> simp [firstSuch, hx, ih]

theorem firstSuch_congr {p q : α → Prop} [DecidablePred p] [DecidablePred q]
    {l : List α} (h : ∀ a ∈ l, p a ↔ q a) : firstSuch p l = firstSuch q l := by
  induction l with
  | nil => rfl
  | cons x xs ih =>
    have hx := h x (List.mem_cons_self x xs)
    by_cases hp : p x
    · simp [firstSuch, hp, hx.mp hp]
    · have hq : ¬ q x := fun hq => hp (hx.mpr hq)
      simp [firstSuch, hp, hq]
      exact ih (fun a ha => h a (List.mem_cons_of_mem _ ha))

theorem firstVal_some {f : α → Option β} {l : List α} {b : β}
    (h : firstVal f l = some b) : ∃ a ∈ l, f a = some b := by
  induction l with
  | nil => simp [firstVal] at h
  | cons x xs ih =>
    cases hx : f x with
    | some c =>
      simp [firstVal, hx] at h
      exact ⟨x, List.mem_cons_self x xs, by rw [hx, h]⟩
    | none =>
      simp [firstVal, hx] at h
      obtain ⟨a, ha, hfa⟩ := ih h
      exact ⟨a, List.mem_cons_of_mem _ ha, hfa⟩

theorem lookupQ_mem {k : Str} {m : List (Str × ℚ)} {v : ℚ}
    (h : lookupQ k m = some v) : ∃ kv ∈ m, kv.2 = v := by
  unfold lookupQ at h
  cases hf : firstSuch (fun kv : Str × ℚ => kv.1 = k) m with
  | some kv =>
    rw [hf] at h
    exact ⟨kv, firstSuch_mem hf, by simpa using h⟩
  | none => rw [hf] at h; simp at h

theorem dget_cons {kv : Str × PyVal} {d : Bag} {k : Str} :
    dget (kv :: d) k = if kv.1 = k then some kv.2 else dget d k := by
  by_cases h : kv.1 = k <;> simp [dget, firstSuch, h]

theorem dget_dset_self (d : Bag) (k : Str) (v : PyVal) :
    dget (dset d k v) k = some v := by
  induction d with
  | nil => simp [dset, dget, firstSuch]
  | cons kv rest ih =>
    by_cases h : kv.1 = k
    · simp [dset, h, dget_cons]
    · simp [dset, h, dget_cons, ih]

theorem dget_dset_ne {k' k : Str} (d : Bag) (v : PyVal) (h : k' ≠ k) :
    dget (dset d k' v) k = dget d k := by
  induction d with
  | nil =>
    show dget [(k', v)] k = dget [] k
    rw [dget_cons, if_neg h]
  | cons kv rest ih =>
    by_cases hk : kv.1 = k'
    · show dget (if kv.1 = k' then (k', v) :: rest else kv :: dset rest k' v) k = _
      rw [if_pos hk, dget_cons, dget_cons, hk, if_neg h, if_neg h]
    · show dget (if kv.1 = k' then (k', v) :: rest else kv :: dset rest k' v) k = _
      rw [if_neg hk, dget_cons, dget_cons, ih]

theorem dset_eq_of_dget {d : Bag} {k : Str} {v : PyVal}
    (h : dget d k = some v) : dset d k v = d := by
  induction d with
  | nil => simp [dget, firstSuch] at h
  | cons kv rest ih =>
    obtain ⟨k1, v1⟩ := kv
    by_cases hk : k1 = k
    · rw [dget_cons, if_pos hk] at h
      injection h with hv
      show (if k1 = k then (k, v) :: rest else _) = _
      rw [if_pos hk, hk, show v1 = v from hv]
    · rw [dget_cons, if_neg hk] at h
      show (if k1 = k then (k, v) :: rest else (k1, v1) :: dset rest k v) = _
      rw [if_neg hk, ih h]

/-! Lemmas about the stages of normalize_per100. -/

theorem coerceOrZero_num (q : ℚ) : coerceOrZero (.num q) = q := by
  by_cases h : q = 0 <;> simp [coerceOrZero, truthyV, floatOf, h]

theorem dget_forceNum_self {n : Bag} {k : Str} {q : ℚ}
    (h : dget n k = some (.num q)) : dget (forceNum n k) k = some (.num q) := by
  unfold forceNum
  rw [h]
  simp [coerceOrZero_num, dget_dset_self]

theorem foldl_forceNum_keep {ks : List Str} {n : Bag} {k : Str} {q : ℚ}
    (h : dget n k = some (.num q)) :
    dget (ks.foldl forceNum n) k = some (.num q) := by
  induction ks generalizing n with
  | nil => exact h
  | cons k' ks ih =>
    show dget (ks.foldl forceNum (forceNum n k')) k = _
    apply ih
    by_cases hk : k' = k
    · subst hk; exact dget_forceNum_self h
    · unfold forceNum
      rw [dget_dset_ne _ _ hk]
      exact h

theorem foldl_forceNum_mem {ks : List Str} {k : Str} (hk : k ∈ ks) (n : Bag) :
    ∃ q, dget (ks.foldl forceNum n) k = some (.num q) := by
  induction ks generalizing n with
  | nil => cases hk
  | cons k' ks ih =>
    show ∃ q, dget (ks.foldl forceNum (forceNum n k')) k = _
    rcases List.mem_cons.mp hk with h | h
    · subst h
      exact ⟨_, foldl_forceNum_keep (by unfold forceNum; exact dget_dset_self _ _ _)⟩
    · exact ih h _

theorem foldl_forceNum_ne {ks : List Str} {k : Str} (hk : ∀ k' ∈ ks, k' ≠ k) (n : Bag) :
    dget (ks.foldl forceNum n) k = dget n k := by
  induction ks generalizing n with
  | nil => rfl
  | cons k' ks ih =>
    show dget (ks.foldl forceNum (forceNum n k')) k = _
    rw [ih (fun a ha => hk a (List.mem_cons_of_mem _ ha))]
    unfold forceNum
    exact dget_dset_ne _ _ (hk k' (List.mem_cons_self _ _))

theorem foldl_forceNum_id {ks : List Str} {n : Bag}
    (h : ∀ k ∈ ks, ∃ q, dget n k = some (.num q)) :
    ks.foldl forceNum n = n := by
  induction ks with
  | nil => rfl
  | cons k' ks ih =>
    obtain ⟨q, hq⟩ := h k' (List.mem_cons_self _ _)
    have hstep : forceNum n k' = n := by
      unfold forceNum
      rw [hq]
      show dset n k' (.num (coerceOrZero (.num q))) = n
      rw [coerceOrZero_num]
      exact dset_eq_of_dget hq
    show ks.foldl forceNum (forceNum n k') = n
    rw [hstep]
    exact ih (fun a ha => h a (List.mem_cons_of_mem _ ha))

theorem synCopy_of_dhas {n : Bag} {canon : Str} {alts : List Str}
    (hd : dhas n canon = true) : synCopy n canon alts = n := by
  simp [synCopy, hd]

theorem synCopy_keep_num {n : Bag} {canon : Str} {alts : List Str} {k : Str} {q : ℚ}
    (h : dget n k = some (.num q)) : dget (synCopy n canon alts) k = some (.num q) := by
  by_cases hc : canon = k
  · subst hc
    rw [synCopy_of_dhas (by simp [dhas, h])]
    exact h
  · unfold synCopy
    by_cases hd : dhas n canon = true
    · simp [hd, h]
    · simp only [hd, if_neg]
      cases hf : firstSuch (fun k : Str => dhas n k = true) alts with
      | some a => simp [hf, dget_dset_ne _ _ hc, h]
      | none => simp [hf, h]

theorem dget_synCopy_ne {n : Bag} {canon : Str} {alts : List Str} {k : Str}
    (hc : canon ≠ k) : dget (synCopy n canon alts) k = dget n k := by
  unfold synCopy
  by_cases hd : dhas n canon = true
  · simp [hd]
  · simp only [hd, if_neg]
    cases hf : firstSuch (fun k : Str => dhas n k = true) alts with
    | some a => simp [hf, dget_dset_ne _ _ hc]
    | none => simp [hf]

theorem foldl_synCopy_keep {bs : List (Str × List Str)} {n : Bag} {k : Str} {q : ℚ}
    (h : dget n k = some (.num q)) :
    dget (bs.foldl (fun m b => synCopy m b.1 b.2) n) k = some (.num q) := by
  induction bs generalizing n with
  | nil => exact h
  | cons b bs ih =>
    show dget (bs.foldl _ (synCopy n b.1 b.2)) k = _
    exact ih (synCopy_keep_num h)

theorem foldl_synCopy_ne {bs : List (Str × List Str)} {k : Str}
    (hbs : ∀ b ∈ bs, b.1 ≠ k) (n : Bag) :
    dget (bs.foldl (fun m b => synCopy m b.1 b.2) n) k = dget n k := by
  induction bs generalizing n with
  | nil => rfl
  | cons b bs ih =>
    show dget (bs.foldl _ (synCopy n b.1 b.2)) k = _
    rw [ih (fun a ha => hbs a (List.mem_cons_of_mem _ ha))]
    exact dget_synCopy_ne (hbs b (List.mem_cons_self _ _))

theorem foldl_synCopy_id {bs : List (Str × List Str)} {n : Bag}
    (h : ∀ b ∈ bs, dhas n b.1 = true) :
    bs.foldl (fun m b => synCopy m b.1 b.2) n = n := by
  induction bs with
  | nil => rfl
  | cons b bs ih =>
    show bs.foldl _ (synCopy n b.1 b.2) = n
    rw [synCopy_of_dhas (h b (List.mem_cons_self _ _))]
    exact ih (fun a ha => h a (List.mem_cons_of_mem _ ha))

theorem calStep_id {n : Bag} (h : ∃ q, dget n (cs "Calories") = some (.num q)) :
    calStep n = n := by
  obtain ⟨q, hq⟩ := h
  by_cases h0 : q = 0
  · subst h0
    have ht : truthyV (dget n (cs "Calories")) = false := by rw [hq]; simp [truthyV]
    have hcoe : coerce_calories_from_usda n = 0 := by
      unfold coerce_calories_from_usda firstUsable ENERGY_KEYS_KCAL
      simp [firstVal, hq, notNA, floatOf]
    unfold calStep
    rw [ht, hcoe]
    rw [if_neg (by simp : ¬(false = true))]
    exact dset_eq_of_dget hq
  · have ht : truthyV (dget n (cs "Calories")) = true := by
      rw [hq]; simp [truthyV, h0]
    unfold calStep
    rw [ht]
    simp

theorem normalize_allNum (b : Bag) :
    ∀ k ∈ wantedKeys, ∃ q, dget (normalize_per100 b) k = some (.num q) := by
  intro k hk
  exact foldl_forceNum_mem hk _

theorem normalize_fixed {n : Bag}
    (h : ∀ k ∈ wantedKeys, ∃ q, dget n k = some (.num q)) :
    normalize_per100 n = n := by
  have hcal : ∃ q, dget n (cs "Calories") = some (.num q) :=
    h (cs "Calories") (by decide)
  have h1 : calStep n = n := calStep_id hcal
  have h2 : synAll n = n := by
    unfold synAll
    apply foldl_synCopy_id
    intro b hb
    have hbw : b.1 ∈ wantedKeys := by
      fin_cases hb <;> decide
    obtain ⟨q, hq⟩ := h b.1 hbw
    simp [dhas, hq]
  unfold normalize_per100
  rw [h1, h2]
  exact foldl_forceNum_id h

theorem firstSuch_none_of {p : α → Prop} [DecidablePred p] {l : List α}
    (h : ∀ a ∈ l, ¬ p a) : firstSuch p l = Option.none := by
  induction l with
  | nil => rfl
  | cons x xs ih =>
    show (if p x then some x else firstSuch p xs) = Option.none
    rw [if_neg (h x (List.mem_cons_self _ _))]
    exact ih (fun a ha => h a (List.mem_cons_of_mem _ ha))

theorem calStep_dget_ne {n : Bag} {k : Str} (h : cs "Calories" ≠ k) :
    dget (calStep n) k = dget n k := by
  unfold calStep
  by_cases ht : truthyV (dget n (cs "Calories")) = true
  · rw [if_pos ht]
  · rw [if_neg ht]
    exact dget_dset_ne _ _ h

theorem synCopy_id_of_absent {n : Bag} {canon : Str} {alts : List Str}
    (hc : dget n canon = Option.none) (ha : ∀ a ∈ alts, dget n a = Option.none) :
    synCopy n canon alts = n := by
  unfold synCopy
  rw [if_neg (by simp [dhas, hc])]
  rw [firstSuch_none_of (fun a hmem => by simp [dhas, ha a hmem])]

theorem dget_synCopy_present {n : Bag} {canon : Str} {alts : List Str} {k : Str}
    {v : PyVal} (h : dget n k = some v) : dget (synCopy n canon alts) k = some v := by
  by_cases hc : canon = k
  · subst hc
    rw [synCopy_of_dhas (by simp [dhas, h])]
    exact h
  · rw [dget_synCopy_ne hc]
    exact h

theorem foldl_synCopy_present {bs : List (Str × List Str)} {n : Bag} {k : Str}
    {v : PyVal} (h : dget n k = some v) :
    dget (bs.foldl (fun m b => synCopy m b.1 b.2) n) k = some v := by
  induction bs generalizing n with
  | nil => exact h
  | cons c bs ih =>
    show dget (bs.foldl _ (synCopy n c.1 c.2)) k = _
    exact ih (dget_synCopy_present h)

theorem foldl_synCopy_absent {bs : List (Str × List Str)} {k : Str} :
    ∀ {n : Bag},
      (∀ blk ∈ bs, ∀ blkB ∈ bs, ∀ a ∈ blkB.2, blk.1 = a → blk.1 = blkB.1) →
      dget n k = Option.none →
      (∀ blk ∈ bs, blk.1 = k → ∀ a ∈ blk.2, dget n a = Option.none) →
      dget (bs.foldl (fun m b => synCopy m b.1 b.2) n) k = Option.none := by
  induction bs with
  | nil =>
    intro n _ h1 _
    exact h1
  | cons c bs ih =>
    intro n hdisj h1 h2
    show dget (bs.foldl _ (synCopy n c.1 c.2)) k = Option.none
    have hdisj2 : ∀ blk ∈ bs, ∀ blkB ∈ bs, ∀ a ∈ blkB.2, blk.1 = a → blk.1 = blkB.1 :=
      fun blk hb blkB hbB a ha =>
        hdisj blk (List.mem_cons_of_mem _ hb) blkB (List.mem_cons_of_mem _ hbB) a ha
    by_cases hc : c.1 = k
    · have hid : synCopy n c.1 c.2 = n :=
        synCopy_id_of_absent (by rw [hc]; exact h1) (h2 c (List.mem_cons_self _ _) hc)
      rw [hid]
      exact ih hdisj2 h1 (fun blk hb => h2 blk (List.mem_cons_of_mem _ hb))
    · apply ih hdisj2
      · rw [dget_synCopy_ne hc]
        exact h1
      · intro blk hb hbk a ha
        have hca : c.1 ≠ a := fun he =>
          hc (by
            rw [hdisj c (List.mem_cons_self _ _) blk (List.mem_cons_of_mem _ hb) a ha he]
            exact hbk)
        rw [dget_synCopy_ne hca]
        exact h2 blk (List.mem_cons_of_mem _ hb) hbk a ha

theorem foldl_forceNum_missing {ks : List Str} {k : Str} (hk : k ∈ ks) :
    ∀ {n : Bag}, dget n k = Option.none →
      dget (ks.foldl forceNum n) k = some (.num 0) := by
  induction ks with
  | nil => cases hk
  | cons q ks ih =>
    intro n h
    show dget (ks.foldl forceNum (forceNum n q)) k = _
    by_cases hq : q = k
    · subst hq
      have hstep : dget (forceNum n q) q = some (.num 0) := by
        unfold forceNum
        rw [h]
        show dget (dset n q (.num (coerceOrZero (.num 0)))) q = _
        rw [coerceOrZero_num]
        exact dget_dset_self _ _ _
      exact foldl_forceNum_keep hstep
    · rcases List.mem_cons.mp hk with he | hm
      · exact absurd he.symm hq
      · apply ih hm
        unfold forceNum
        rw [dget_dset_ne _ _ hq]
        exact h

theorem foldl_forceNum_val {ks : List Str} {k : Str} (hk : k ∈ ks) :
    ∀ {n : Bag} {v : PyVal}, dget n k = some v →
      dget (ks.foldl forceNum n) k = some (.num (coerceOrZero v)) := by
  induction ks with
  | nil => cases hk
  | cons q ks ih =>
    intro n v h
    show dget (ks.foldl forceNum (forceNum n q)) k = _
    by_cases hq : q = k
    · subst hq
      have hstep : dget (forceNum n q) q = some (.num (coerceOrZero v)) := by
        unfold forceNum
        rw [h]
        show dget (dset n q (.num (coerceOrZero v))) q = _
        exact dget_dset_self _ _ _
      exact foldl_forceNum_keep hstep
    · rcases List.mem_cons.mp hk with he | hm
      · exact absurd he.symm hq
      · apply ih hm
        unfold forceNum
        rw [dget_dset_ne _ _ hq]
        exact h

theorem coerceOrZero_str_none {s : Str} (h : parseFloat s = Option.none) :
    coerceOrZero (.str s) = 0 := by
  unfold coerceOrZero truthyV floatOf
  by_cases hs : s = [] <;> simp [hs, h]

/-! Lemmas about the portion matching and parsing primitives. -/

theorem portion_match_mem {ps : List PortionEntry} {u : Str} {p : PortionEntry}
    (h : portion_match_from_labels ps u = some p) : p ∈ ps := by
  unfold portion_match_from_labels at h
  by_cases hg : u = [] ∨ ps = []
  · rw [if_pos hg] at h; cases h
  · rw [if_neg hg] at h
    cases hf : firstSuch
        (fun p : PortionEntry => p.unit ∈ candidateSet (lowerStr (trimBoth u))) ps with
    | some p' =>
      rw [hf] at h
      have h2 : some p' = some p := h
      injection h2 with he
      exact he ▸ firstSuch_mem hf
    | none =>
      rw [hf] at h
      have h2 : firstSuch
          (fun p : PortionEntry =>
            ∃ c ∈ candidateSet (lowerStr (trimBoth u)),
              substrOf c (lowerStr p.label) = true) ps = some p := h
      exact firstSuch_mem h2

theorem portion_match_nil (u : Str) : portion_match_from_labels [] u = Option.none := by
  unfold portion_match_from_labels
  rw [if_pos (Or.inr rfl)]

theorem pmGuard (ps : List PortionEntry) (u : Str) :
    (if ps ≠ [] then portion_match_from_labels ps u else Option.none) =
      portion_match_from_labels ps u := by
  by_cases hps : ps = []
  · subst hps
    rw [portion_match_nil, if_neg (by simp)]
  · rw [if_pos hps]

theorem genericVol_pos {u : Str} {v : ℚ} (h : lookupQ u GENERIC_VOL = some v) : 0 < v := by
  obtain ⟨kv, hmem, hv⟩ := lookupQ_mem h
  have hall : ∀ kv ∈ GENERIC_VOL, 0 < kv.2 := by
    intro kv hkv
    fin_cases hkv <;> norm_num
  exact hv ▸ hall kv hmem

theorem typical_pos {name unit : Str} {w : ℚ}
    (h : typical_grams_for_unit name unit = some w) : 0 < w := by
  unfold typical_grams_for_unit at h
  obtain ⟨pu, hmem, hf⟩ := firstVal_some h
  by_cases hp : pu.1 (collapseWs (lowerStr (trimBoth name))) = true
  · rw [if_pos hp] at hf
    obtain ⟨kv, hkv, hv⟩ := lookupQ_mem hf
    have hall : ∀ pu ∈ FALLBACK_TYPICAL_WEIGHTS, ∀ kv ∈ pu.2, 0 < kv.2 := by
      intro pu hpu
      fin_cases hpu <;>
        · intro kv hkv
          dsimp only at hkv
          fin_cases hkv <;> norm_num
    exact hv ▸ hall pu hmem kv hkv
  · rw [if_neg hp] at hf
    cases hf

theorem parseNum_nil : parseNum [] = Option.none := rfl

theorem parseNum_none_of_head {c : Char} {t : Str} (hc : c.isDigit = false) :
    parseNum (c :: t) = Option.none := by
  simp [parseNum, List.takeWhile_cons, hc]

theorem parseNum_head {s : Str} {x : ℚ × Str} (h : parseNum s = some x) :
    ∃ c t, s = c :: t ∧ c.isDigit = true := by
  cases s with
  | nil => rw [parseNum_nil] at h; cases h
  | cons c t =>
    by_cases hc : c.isDigit = true
    · exact ⟨c, t, rfl, hc⟩
    · rw [parseNum_none_of_head (by simpa using hc)] at h
      cases h

theorem dropWhile_all_false {p : Char → Bool} {t : Str}
    (h : ∀ c ∈ t, p c = false) : t.dropWhile p = t := by
  cases t with
  | nil => rfl
  | cons c rest => simp [List.dropWhile_cons, h c (List.mem_cons_self _ _)]

theorem mapId_of {f : Char → Char} {t : Str} (h : ∀ c ∈ t, f c = c) : t.map f = t := by
  induction t with
  | nil => rfl
  | cons c rest ih =>
    simp only [List.map_cons, h c (List.mem_cons_self _ _)]
    rw [ih (fun a ha => h a (List.mem_cons_of_mem _ ha))]

theorem collapseGo_no_space {t : Str} (h : ∀ c ∈ t, isSpaceChar c = false) :
    ∀ b, collapseGo b t = t := by
  induction t with
  | nil => intro b; rfl
  | cons c rest ih =>
    intro b
    show (if isSpaceChar c = true then _ else c :: collapseGo false rest) = c :: rest
    rw [if_neg (by simp [h c (List.mem_cons_self _ _)])]
    rw [ih (fun a ha => h a (List.mem_cons_of_mem _ ha)) false]

theorem collapse_no_space {t : Str} (h : ∀ c ∈ t, isSpaceChar c = false) :
    collapseWs t = t := collapseGo_no_space h false

theorem normText_slash {t : Str} (h : ∀ c ∈ t, c = '/') : normText t = t := by
  have hsp : ∀ c ∈ t, isSpaceChar c = false := by
    intro c hc; rw [h c hc]; decide
  have htrimL : trimL t = t := dropWhile_all_false hsp
  have htrimR : trimR t = t := by
    unfold trimR
    rw [dropWhile_all_false (fun c hc => hsp c (List.mem_reverse.mp hc)), List.reverse_reverse]
  have hlower : lowerStr t = t :=
    mapId_of (fun c hc => by rw [h c hc]; decide)
  have hdash : dashFix t = t :=
    mapId_of (fun c hc => by rw [h c hc]; decide)
  unfold normText trimBoth
  rw [htrimL, htrimR, hlower, hdash]
  exact collapse_no_space hsp

/-! Claim theorems. -/

/-- C8: normalize_per100 is idempotent: for every input bag b,
normalize(normalize(b)) equals normalize(b). -/
theorem normalize_per100_idempotent (b : Bag) :
    normalize_per100 (normalize_per100 b) = normalize_per100 b :=
  normalize_fixed (normalize_allNum b)

/-- C7 counterexample: normalize_per100 does not return a bag whose key set
is exactly the canonical nutrient key set; a non canonical input key such as
"Foo" survives in the output, with its original value. -/
theorem normalize_per100_extra_key_counterexample :
    dget (normalize_per100 [(cs "Foo", PyVal.num 1)]) (cs "Foo") = some (PyVal.num 1) ∧
    (cs "Foo") ∉ wantedKeys := by
  constructor
  · with_unfolding_all rfl
  · decide

/-- C7 as amended: normalize_per100 returns a bag containing at least the
canonical nutrient key set, every canonical key holding a float value
defaulting to 0.0 when unknown or unparseable: a canonical key that is
absent from the input (with its synonym sources also absent, and, for
Calories, no usable energy alias) comes out as 0.0, and a canonical key
holding an unparseable string comes out as 0.0; keys outside the canonical
set are preserved with their input values; Calories is taken from the
priority list of kcal labeled aliases first, only if none is usable from a
kJ labeled alias divided by 4.184, and is 0.0 when neither is usable. -/
theorem normalize_per100_amended (b : Bag) :
    (∀ k ∈ wantedKeys, ∃ q, dget (normalize_per100 b) k = some (.num q)) ∧
    (∀ k, k ∉ wantedKeys → dget (normalize_per100 b) k = dget b k) ∧
    (truthyV (dget b (cs "Calories")) = false →
      (∀ v, firstUsable ENERGY_KEYS_KCAL b = some v →
        dget (normalize_per100 b) (cs "Calories") = some (.num v)) ∧
      (firstUsable ENERGY_KEYS_KCAL b = Option.none →
        ∀ v, firstUsable ENERGY_KEYS_KJ b = some v →
          dget (normalize_per100 b) (cs "Calories") = some (.num (v / kJfactor))) ∧
      (firstUsable ENERGY_KEYS_KCAL b = Option.none →
        firstUsable ENERGY_KEYS_KJ b = Option.none →
        dget (normalize_per100 b) (cs "Calories") = some (.num 0))) ∧
    (∀ k ∈ wantedKeys,
      dget b k = Option.none →
      (∀ blk ∈ SYN_BLOCKS, blk.1 = k → ∀ a ∈ blk.2, dget b a = Option.none) →
      (k = cs "Calories" →
        firstUsable ENERGY_KEYS_KCAL b = Option.none ∧
        firstUsable ENERGY_KEYS_KJ b = Option.none) →
      dget (normalize_per100 b) k = some (.num 0)) ∧
    (∀ k ∈ wantedKeys, ∀ s,
      dget b k = some (.str s) →
      parseFloat s = Option.none →
      (k = cs "Calories" → s ≠ []) →
      dget (normalize_per100 b) k = some (.num 0)) := by
  have hself : truthyV (dget b (cs "Calories")) = false →
      dget (normalize_per100 b) (cs "Calories") =
        some (.num (coerce_calories_from_usda b)) := by
    intro hcal
    unfold normalize_per100
    apply foldl_forceNum_keep
    unfold synAll
    apply foldl_synCopy_keep
    unfold calStep
    rw [hcal, if_neg (by simp)]
    exact dget_dset_self _ _ _
  refine ⟨normalize_allNum b, ?_, ?_, ?_, ?_⟩
  · intro k hk
    unfold normalize_per100
    rw [foldl_forceNum_ne (fun k' hk' he => hk (by rw [← he]; exact hk')) _]
    unfold synAll
    rw [foldl_synCopy_ne ?_ _]
    · unfold calStep
      by_cases ht : truthyV (dget b (cs "Calories")) = true
      · rw [if_pos ht]
      · rw [if_neg ht]
        refine dget_dset_ne _ _ (fun he => hk ?_)
        rw [← he]
        decide
    · intro blk hblk
      have hw : blk.1 ∈ wantedKeys := by fin_cases hblk <;> decide
      exact fun he => hk (by rw [← he]; exact hw)
  · intro hcal
    refine ⟨?_, ?_, ?_⟩
    · intro v hv
      rw [hself hcal]
      unfold coerce_calories_from_usda
      rw [hv]
    · intro hnone v hv
      rw [hself hcal]
      unfold coerce_calories_from_usda
      rw [hnone, hv]
    · intro hn1 hn2
      rw [hself hcal]
      unfold coerce_calories_from_usda
      rw [hn1, hn2]
  · intro k hk hmiss hsrc hcalhyp
    by_cases hck : k = cs "Calories"
    · subst hck
      obtain ⟨hn1, hn2⟩ := hcalhyp rfl
      have hcal : truthyV (dget b (cs "Calories")) = false := by rw [hmiss]; rfl
      rw [hself hcal]
      unfold coerce_calories_from_usda
      rw [hn1, hn2]
    · have hcalne : cs "Calories" ≠ k := fun he => hck he.symm
      have h1 : dget (calStep b) k = Option.none := by
        rw [calStep_dget_ne hcalne]
        exact hmiss
      have h2 : dget (synAll (calStep b)) k = Option.none := by
        unfold synAll
        refine foldl_synCopy_absent ?_ h1 ?_
        · decide
        · intro blk hb hbk a ha
          have hAll : ∀ blk ∈ SYN_BLOCKS, ∀ a ∈ blk.2, a ≠ cs "Calories" := by decide
          have hane : cs "Calories" ≠ a := fun he => (hAll blk hb a ha) he.symm
          rw [calStep_dget_ne hane]
          exact hsrc blk hb hbk a ha
      unfold normalize_per100
      exact foldl_forceNum_missing hk h2
  · intro k hk s hstr hps hcs
    have h1 : dget (calStep b) k = some (.str s) := by
      by_cases hck : k = cs "Calories"
      · subst hck
        have ht : truthyV (dget b (cs "Calories")) = true := by
          rw [hstr]
          simp [truthyV, hcs rfl]
        unfold calStep
        rw [if_pos ht]
        exact hstr
      · rw [calStep_dget_ne (fun he => hck he.symm)]
        exact hstr
    have h2 : dget (synAll (calStep b)) k = some (.str s) := by
      unfold synAll
      exact foldl_synCopy_present h1
    unfold normalize_per100
    rw [foldl_forceNum_val hk h2]
    rw [coerceOrZero_str_none hps]

/-- C7 witness: the amended theorem applied at concrete bags: Sodium is
numeric in the output of a bag lacking it; a bag whose only energy datum is
4184 kJ gets Calories 4184 divided by 4.184; a missing Protein defaults to
0.0, and a Protein holding the unparseable string "abc" defaults to 0.0. -/
theorem normalize_per100_amended_witness :
    (∃ q, dget (normalize_per100 [(cs "Foo", PyVal.num 1)]) (cs "Sodium") = some (.num q)) ∧
    dget (normalize_per100 [(cs "Energy (kJ)", PyVal.num 4184)]) (cs "Calories") =
      some (.num (4184 / kJfactor)) ∧
    dget (normalize_per100 [(cs "Foo", PyVal.num 1)]) (cs "Protein") = some (.num 0) ∧
    dget (normalize_per100 [(cs "Protein", PyVal.str (cs "abc"))]) (cs "Protein") =
      some (.num 0) :=
  ⟨(normalize_per100_amended [(cs "Foo", PyVal.num 1)]).1 (cs "Sodium") (by decide),
   ((normalize_per100_amended [(cs "Energy (kJ)", PyVal.num 4184)]).2.2.1 (by rfl)).2.1
     (by rfl) 4184 (by rfl),
   (normalize_per100_amended [(cs "Foo", PyVal.num 1)]).2.2.2.1 (cs "Protein")
     (by decide) (by rfl) (by decide) (fun h => absurd h (by decide)),
   (normalize_per100_amended [(cs "Protein", PyVal.str (cs "abc"))]).2.2.2.2
     (cs "Protein") (by decide) (cs "abc") (by rfl) (by rfl)
     (fun h => absurd h (by decide))⟩

/-- C9: the scaling engine computes scaled value = per100 value times grams
over 100 for every key, hence is linear in grams: scaling by g1 plus g2 is
the element wise sum of the two scalings, scaling by 0 is the zero bag,
scaling by 100 is the identity on a numeric bag, and a non numeric value
coerces to 0.0 instead of raising. -/
theorem nutrients_for_grams_linear (b : List (Str × ℚ)) (g g1 g2 : ℚ)
    (hg1 : 0 ≤ g1) (hg2 : 0 ≤ g2) :
    nutrients_for_grams (toDict b) g =
      b.map (fun kv => (kv.1, PyVal.num (kv.2 * g / 100))) ∧
    nutrients_for_grams (toDict b) (g1 + g2) =
      addBags (nutrients_for_grams (toDict b) g1) (nutrients_for_grams (toDict b) g2) ∧
    nutrients_for_grams (toDict b) 0 = b.map (fun kv => (kv.1, PyVal.num 0)) ∧
    nutrients_for_grams (toDict b) 100 = toDict b ∧
    (∀ k v, floatOf v = Option.none → nutrients_for_grams [(k, v)] g = [(k, PyVal.num 0)]) := by
  have hform : ∀ (c : List (Str × ℚ)) (h : ℚ),
      nutrients_for_grams (toDict c) h =
        c.map (fun kv => (kv.1, PyVal.num (kv.2 * h / 100))) := by
    intro c h
    induction c with
    | nil => rfl
    | cons kv rest ih =>
      simp only [toDict, List.map_cons, nutrients_for_grams] at ih ⊢
      rw [ih]
      rfl
  refine ⟨hform b g, ?_, ?_, ?_, ?_⟩
  · rw [hform, hform, hform]
    induction b with
    | nil => rfl
    | cons kv rest ih =>
      simp only [List.map_cons, addBags, List.zipWith_cons_cons] at ih ⊢
      refine congrArg₂ List.cons ?_ ih
      show (kv.1, PyVal.num (kv.2 * (g1 + g2) / 100)) =
        (kv.1, PyVal.num ((floatOf (PyVal.num (kv.2 * g1 / 100))).getD 0 +
          (floatOf (PyVal.num (kv.2 * g2 / 100))).getD 0))
      simp only [floatOf, Option.getD_some]
      rw [show kv.2 * (g1 + g2) / 100 = kv.2 * g1 / 100 + kv.2 * g2 / 100 by ring]
  · rw [hform]
    apply List.map_congr_left
    intro kv _
    rw [show kv.2 * 0 / 100 = 0 by ring]
  · rw [hform]
    unfold toDict
    apply List.map_congr_left
    intro kv _
    rw [show kv.2 * 100 / 100 = kv.2 by field_simp]
  · intro k v hv
    simp [nutrients_for_grams, hv]

/-- C9 witness: the theorem applied at a concrete bag and concrete gram
values, discharging the nonnegativity hypotheses. -/
theorem nutrients_for_grams_linear_witness :
    nutrients_for_grams (toDict [(cs "Protein", 5), (cs "Calories", 200)]) 100 =
      toDict [(cs "Protein", 5), (cs "Calories", 200)] :=
  (nutrients_for_grams_linear [(cs "Protein", 5), (cs "Calories", 200)] 50 1 2
    (by norm_num) (by norm_num)).2.2.2.1

/-- C5: derive_common_volumes_simple appends, when a tbsp or tablespoon
entry exists, a tsp entry of a third of its gram weight and a cup entry of
16 times it; when no tbsp entry exists but a tsp entry does, only a tbsp
entry of 3 times its gram weight; otherwise nothing; the pre existing
entries are kept unchanged in order, and in the concrete single tbsp 15 g
table, resolving tsp gives 5 grams per unit and cup gives 240. -/
theorem derive_common_volumes_spec :
    (∀ ps : List PortionEntry,
      (∀ t, firstSuch (fun p : PortionEntry =>
            p.unit = cs "tablespoon" ∨ p.unit = cs "tbsp") ps = some t →
        derive_common_volumes_simple ps =
          ps ++ [cloneEntry (cs "tsp") (t.gramWeight / 3) ps.length,
                 cloneEntry (cs "cup") (t.gramWeight * 16) (ps.length + 1)]) ∧
      (firstSuch (fun p : PortionEntry =>
            p.unit = cs "tablespoon" ∨ p.unit = cs "tbsp") ps = Option.none →
        (∀ t, firstSuch (fun p : PortionEntry =>
              p.unit = cs "teaspoon" ∨ p.unit = cs "tsp") ps = some t →
          derive_common_volumes_simple ps =
            ps ++ [cloneEntry (cs "tbsp") (t.gramWeight * 3) ps.length]) ∧
        (firstSuch (fun p : PortionEntry =>
              p.unit = cs "teaspoon" ∨ p.unit = cs "tsp") ps = Option.none →
          derive_common_volumes_simple ps = ps))) ∧
    ((portion_match_from_labels
        (derive_common_volumes_simple [⟨cs "0", cs "1 tbsp", cs "tbsp", 15, some 1⟩])
        (cs "tsp")).map PortionEntry.gramWeight = some 5 ∧
     (portion_match_from_labels
        (derive_common_volumes_simple [⟨cs "0", cs "1 tbsp", cs "tbsp", 15, some 1⟩])
        (cs "cup")).map PortionEntry.gramWeight = some 240) := by
  constructor
  · intro ps
    refine ⟨?_, fun hn => ⟨?_, ?_⟩⟩
    · intro t ht
      unfold derive_common_volumes_simple
      rw [ht]
    · intro t ht
      unfold derive_common_volumes_simple
      rw [hn, ht]
    · intro hn2
      unfold derive_common_volumes_simple
      rw [hn, hn2]
  · constructor
    · with_unfolding_all rfl
    · with_unfolding_all rfl

/-- C5 witness: the tbsp clause applied to the concrete one entry table. -/
theorem derive_common_volumes_spec_witness :
    derive_common_volumes_simple [⟨cs "0", cs "1 tbsp", cs "tbsp", 15, some 1⟩] =
      [⟨cs "0", cs "1 tbsp", cs "tbsp", 15, some 1⟩] ++
        [cloneEntry (cs "tsp") ((15 : ℚ) / 3) 1, cloneEntry (cs "cup") ((15 : ℚ) * 16) 2] :=
  (derive_common_volumes_spec.1 [⟨cs "0", cs "1 tbsp", cs "tbsp", 15, some 1⟩]).1
    ⟨cs "0", cs "1 tbsp", cs "tbsp", 15, some 1⟩ (by with_unfolding_all rfl)

/-- C6 counterexample: portion_match_from_labels does not strip a trailing s
from the unit before matching: with a single bagel entry the unit "bagels"
resolves to nothing although the claimed algorithm (with the strip) returns
the entry; moreover an empty unit resolves to nothing although the claimed
algorithm would match an entry whose unit is empty. -/
theorem portion_match_counterexample :
    (portion_match_from_labels
        [⟨cs "0", cs "1 bagel", cs "bagel", 100, Option.none⟩] (cs "bagels") = Option.none ∧
     portion_match_claimed
        [⟨cs "0", cs "1 bagel", cs "bagel", 100, Option.none⟩] (cs "bagels") =
          some ⟨cs "0", cs "1 bagel", cs "bagel", 100, Option.none⟩) ∧
    (portion_match_from_labels [⟨cs "1", cs "portion", [], 50, Option.none⟩] [] = Option.none ∧
     portion_match_claimed [⟨cs "1", cs "portion", [], 50, Option.none⟩] [] =
       some ⟨cs "1", cs "portion", [], 50, Option.none⟩) := by
  exact ⟨⟨by with_unfolding_all rfl, by with_unfolding_all rfl⟩,
         ⟨by with_unfolding_all rfl, by with_unfolding_all rfl⟩⟩

/-- C6 as amended: for a non empty unit string, portion_match_from_labels
lowercases and trims the unit (with no trailing s strip), builds the
candidate set of the unit plus its synonym group when it belongs to one,
returns the first entry whose unit field is in the candidate set, else the
first entry whose lowercased label contains a candidate as a substring, else
nothing; an empty unit or an empty table resolves to nothing. -/
theorem portion_match_amended (ps : List PortionEntry) (u : Str) :
    portion_match_from_labels ps u = portion_match_specAmended ps u := by
  by_cases hu : u = []
  · subst hu
    unfold portion_match_from_labels portion_match_specAmended
    rw [if_pos (Or.inl rfl), if_pos rfl]
  · by_cases hp : ps = []
    · subst hp
      unfold portion_match_from_labels portion_match_specAmended
      rw [if_pos (Or.inr rfl), if_neg hu]
      show Option.none = (match (Option.none : Option PortionEntry) with
        | some p => some p
        | Option.none => firstSuch _ ([] : List PortionEntry))
      rfl
    · unfold portion_match_from_labels portion_match_specAmended
      rw [if_neg (by simp [hu, hp]), if_neg hu]

/-- C4: for a portion table whose stored units are lowercase (as produced by
the portion builders), the default unit used for bare number and slash
shorthand quantities is the first unit of the fixed priority list occurring
among the table units; when none occurs it is the unit of the first entry
having a non empty unit; when the table is empty it is "whole"; and the
default-units branch of grams_from_qty_text indeed reports this unit. -/
theorem pick_default_unit_spec (portions : List PortionEntry)
    (hlc : ∀ p ∈ portions, lowerStr p.unit = p.unit) :
    (∀ u, firstSuch (fun v : Str => v ∈ tableUnits portions) priorityUnits = some u →
      chooseDefaultUnit portions = u) ∧
    (firstSuch (fun v : Str => v ∈ tableUnits portions) priorityUnits = Option.none →
      ∀ e, firstSuch (fun p : PortionEntry => p.unit ≠ []) portions = some e →
        chooseDefaultUnit portions = e.unit) ∧
    (portions = [] → chooseDefaultUnit portions = cs "whole") ∧
    (∀ name alt reg,
      (grams_from_qty_text name (cs "2") portions alt reg).2.1 =
        chooseDefaultUnit portions) := by
  refine ⟨?_, ?_, ?_, ?_⟩
  · intro u hu
    unfold chooseDefaultUnit pick_default_unit
    rw [hu]
    rfl
  · intro hn e he
    unfold chooseDefaultUnit pick_default_unit
    rw [hn]
    rw [firstSuch_map (fun p : PortionEntry => lowerStr p.unit) portions]
    rw [firstSuch_congr (q := fun p : PortionEntry => p.unit ≠ [])
      (fun p hp => by rw [hlc p hp])]
    rw [he]
    show lowerStr e.unit = e.unit
    exact hlc e (firstSuch_mem he)
  · intro hps
    subst hps
    rfl
  · intro name alt reg
    rfl

/-- C4 witness: the theorem applied to a concrete lowercase table containing
a cup entry, discharging the hypotheses. -/
theorem pick_default_unit_spec_witness :
    chooseDefaultUnit [⟨cs "p", cs "1 cup", cs "cup", 240, Option.none⟩] = cs "cup" :=
  (pick_default_unit_spec [⟨cs "p", cs "1 cup", cs "cup", 240, Option.none⟩]
    (by decide)).1 (cs "cup") (by decide)

/-- C1: resolving "2 clove" for the food "Garlic" with an empty portion
table yields 6 grams (unit clove, qty 2) from the per food name heuristic
table; and for positive quantities over tables and alternate results whose
gram weights are positive (the data model invariant), the fallback tiers of
guess_grams_from_unit behave as the strict escalation chain: same food
portion match, then the heuristic table, then alternate food portions, then
the generic volumetric constants, each later tier only when every earlier
tier produced no positive gram weight. -/
theorem guess_grams_fallback_order :
    (∀ alt reg, grams_from_qty_text (cs "Garlic") (cs "2 clove") [] alt reg =
      (6, cs "clove", 2)) ∧
    (∀ name unit qty portions alt,
      0 < qty →
      (∀ p ∈ portions, 0 < p.gramWeight) →
      (∀ p ∈ alt name, 0 < p.gramWeight) →
      guess_grams_from_unit name unit qty portions alt =
        fallbackChainSpec name unit qty portions alt) := by
  constructor
  · intro alt reg
    with_unfolding_all rfl
  · intro name unit qty ps alt hq hp halt
    unfold guess_grams_from_unit fallbackChainSpec
    rw [pmGuard ps unit, pmGuard (alt name) unit]
    cases h1 : portion_match_from_labels ps unit with
    | some p =>
      have hpos : 0 < tierPortion ps unit qty := by
        unfold tierPortion
        rw [h1]
        show 0 < p.gramWeight * qty
        exact mul_pos (hp p (portion_match_mem h1)) hq
      rw [if_pos hpos]
      unfold tierPortion
      rw [h1]
      rfl
    | none =>
      have h1z : tierPortion ps unit qty = 0 := by unfold tierPortion; rw [h1]; rfl
      rw [if_neg (by rw [h1z]; exact lt_irrefl 0)]
      cases h2 : typical_grams_for_unit name unit with
      | some w =>
        have hpos : 0 < tierTypical name unit qty := by
          unfold tierTypical
          rw [h2]
          show 0 < w * qty
          exact mul_pos (typical_pos h2) hq
        rw [if_pos hpos]
        unfold tierTypical
        rw [h2]
        rfl
      | none =>
        have h2z : tierTypical name unit qty = 0 := by unfold tierTypical; rw [h2]; rfl
        rw [if_neg (by rw [h2z]; exact lt_irrefl 0)]
        cases h3 : portion_match_from_labels (alt name) unit with
        | some p2 =>
          have hpos : 0 < tierPortion (alt name) unit qty := by
            unfold tierPortion
            rw [h3]
            show 0 < p2.gramWeight * qty
            exact mul_pos (halt p2 (portion_match_mem h3)) hq
          rw [if_pos hpos]
          unfold tierPortion
          rw [h3]
          rfl
        | none =>
          have h3z : tierPortion (alt name) unit qty = 0 := by
            unfold tierPortion; rw [h3]; rfl
          rw [if_neg (by rw [h3z]; exact lt_irrefl 0)]
          cases h4 : lookupQ (lowerStr (trimBoth unit)) GENERIC_VOL with
          | some v =>
            have hpos : 0 < tierGeneric unit qty := by
              unfold tierGeneric
              rw [h4]
              show 0 < v * qty
              exact mul_pos (genericVol_pos h4) hq
            rw [if_pos hpos]
            unfold tierGeneric
            rw [h4]
            rfl
          | none =>
            have h4z : tierGeneric unit qty = 0 := by unfold tierGeneric; rw [h4]; rfl
            rw [if_neg (by rw [h4z]; exact lt_irrefl 0)]

/-- C1 witness: the chain equation applied at the Garlic input, with all
three positivity hypotheses discharged. -/
theorem guess_grams_fallback_order_witness :
    grams_from_qty_text (cs "Garlic") (cs "2 clove") [] noAlt noReg = (6, cs "clove", 2) ∧
    guess_grams_from_unit (cs "Garlic") (cs "clove") 2 [] noAlt =
      fallbackChainSpec (cs "Garlic") (cs "clove") 2 [] noAlt :=
  ⟨guess_grams_fallback_order.1 noAlt noReg,
   guess_grams_fallback_order.2 (cs "Garlic") (cs "clove") 2 [] noAlt
     (by norm_num) (by simp) (by simp [noAlt])⟩

/-- C2 counterexample: a quantity text of the form number plus the word
"gram" is not returned immediately: it is resolved as a unit through the
portion table, so with a table entry of unit "g" and gram weight 2 the text
"150 gram" produces 300 grams, not 150. -/
theorem grams_gram_word_counterexample :
    grams_from_qty_text (cs "Anything") (cs "150 gram")
      [⟨cs "p1", cs "x", cs "g", 2, Option.none⟩] noAlt noReg = (300, cs "g", 150) ∧
    (300 : ℚ) ≠ 150 := by
  constructor
  · with_unfolding_all rfl
  · norm_num

/-- C2 as amended: the immediate explicit grams pattern of
grams_from_qty_text accepts only the suffix letter g (a number, optional
spaces, then exactly "g"); every text matching it returns (value, "g",
value) at once, for every food name, portion table, alternate lookup and
registry, so in particular "150g" resolves to (150, "g", 150) regardless of
the portion table; texts using the words "gram" or "grams" instead fall
through to the unit resolution chain with the unit normalised to "g". -/
theorem grams_explicit_g_immediate :
    (∀ name portions alt reg,
      grams_from_qty_text name (cs "150g") portions alt reg = (150, cs "g", 150)) ∧
    (∀ name text portions alt reg v,
      matchNumG (normText text) = some v →
      grams_from_qty_text name text portions alt reg = (v, cs "g", v)) := by
  constructor
  · intro name portions alt reg
    rfl
  · intro name text portions alt reg v hm
    have hne : normText text ≠ [] := by
      intro he
      rw [he] at hm
      unfold matchNumG at hm
      rw [parseNum_nil] at hm
      cases hm
    unfold grams_from_qty_text
    rw [if_neg hne, hm]

/-- C2 witness: the amended theorem applied at the text "150g" with its
pattern hypothesis discharged by evaluation. -/
theorem grams_explicit_g_immediate_witness :
    grams_from_qty_text (cs "Food") (cs "150g") [] noAlt noReg = (150, cs "g", 150) :=
  grams_explicit_g_immediate.2 (cs "Food") (cs "150g") [] noAlt noReg 150 rfl

/-- C3: a quantity text consisting only of slashes resolves, in default
units, a quantity equal to the number of slashes, while a number followed by
trailing slashes resolves the number only; with a cracker table of 4 grams
per cracker, "///" for "Saltine Crackers" gives (12, cracker, 3). -/
theorem slash_shorthand_quantities :
    (∀ t name portions alt reg,
      t ≠ [] → (∀ c ∈ t, c = '/') →
      grams_from_qty_text name t portions alt reg =
        defaultUnitResolve name portions alt reg (t.length : ℚ)) ∧
    (∀ t name portions alt reg v,
      matchNumSlashes (normText t) = some v →
      grams_from_qty_text name t portions alt reg =
        defaultUnitResolve name portions alt reg v) ∧
    (∀ alt reg,
      grams_from_qty_text (cs "Saltine Crackers") (cs "///")
        [⟨cs "p0", cs "1 cracker", cs "cracker", 4, Option.none⟩] alt reg =
        (12, cs "cracker", 3)) := by
  refine ⟨?_, ?_, ?_⟩
  · intro t name ps alt reg ht hall
    have hnorm : normText t = t := normText_slash hall
    have hpn : parseNum t = Option.none := by
      cases t with
      | nil => exact parseNum_nil
      | cons c r =>
        have hc : c = '/' := hall c (List.mem_cons_self _ _)
        subst hc
        exact parseNum_none_of_head (by decide)
    have h1 : matchNumG t = Option.none := by unfold matchNumG; rw [hpn]
    have h2 : matchPureNum t = Option.none := by unfold matchPureNum; rw [hpn]
    unfold grams_from_qty_text
    rw [hnorm, if_neg ht, h1, h2, if_pos ⟨ht, hall⟩]
  · intro t name ps alt reg v hm
    have hm0 := hm
    cases hp : parseNum (normText t) with
    | none =>
      unfold matchNumSlashes at hm
      rw [hp] at hm
      cases hm
    | some x =>
      obtain ⟨w, r⟩ := x
      unfold matchNumSlashes at hm
      rw [hp] at hm
      have hm2 : (if r.dropWhile isSpaceChar ≠ [] ∧ ∀ c ∈ r.dropWhile isSpaceChar, c = '/'
          then some w else Option.none) = some v := hm
      by_cases hcond :
          r.dropWhile isSpaceChar ≠ [] ∧ ∀ c ∈ r.dropWhile isSpaceChar, c = '/'
      · obtain ⟨c, t', hs, hdig⟩ := parseNum_head hp
        have hne : normText t ≠ [] := by rw [hs]; simp
        have hgne : ¬(r.dropWhile isSpaceChar = ['g']) := by
          intro he
          have hmem : 'g' ∈ r.dropWhile isSpaceChar := by
            rw [he]; exact List.mem_singleton.mpr rfl
          exact absurd (hcond.2 'g' hmem) (by decide)
        have hg : matchNumG (normText t) = Option.none := by
          unfold matchNumG
          rw [hp]
          show (if r.dropWhile isSpaceChar = ['g'] then some w else Option.none) = Option.none
          rw [if_neg hgne]
        have hpu : matchPureNum (normText t) = Option.none := by
          unfold matchPureNum
          rw [hp]
          show (if r = [] then some w else Option.none) = Option.none
          rw [if_neg (by intro he; rw [he] at hcond; simp at hcond)]
        have hslash : ¬(normText t ≠ [] ∧ ∀ c ∈ normText t, c = '/') := by
          rintro ⟨-, hall⟩
          have hc := hall c (by rw [hs]; exact List.mem_cons_self _ _)
          rw [hc] at hdig
          exact absurd hdig (by decide)
        unfold grams_from_qty_text
        rw [if_neg hne, hg, hpu, if_neg hslash, hm0]
      · rw [if_neg hcond] at hm2
        cases hm2
  · intro alt reg
    with_unfolding_all rfl

/-- C3 witness: the slash only clause applied at the text "///" over an
empty table, discharging both hypotheses. -/
theorem slash_shorthand_quantities_witness :
    grams_from_qty_text (cs "Bread") (cs "///") [] noAlt noReg =
      defaultUnitResolve (cs "Bread") [] noAlt noReg (((cs "///").length : ℕ) : ℚ) :=
  slash_shorthand_quantities.1 (cs "///") (cs "Bread") [] noAlt noReg
    (by decide) (by decide)

/-- C10: a quantity text matching none of the recognised patterns (explicit
grams, bare number, slash only, number plus slashes, number plus unit word)
makes grams_from_qty_text return zero grams with an empty unit, raising
nothing; in particular "banana boat" yields (0, "", 0) for every food name,
portion table, alternate lookup and registry. -/
theorem unrecognized_text_zero :
    (∀ name text portions alt reg,
      matchNumG (normText text) = Option.none →
      matchPureNum (normText text) = Option.none →
      ¬(normText text ≠ [] ∧ ∀ c ∈ normText text, c = '/') →
      matchNumSlashes (normText text) = Option.none →
      matchNumWord (normText text) = Option.none →
      grams_from_qty_text name text portions alt reg = (0, [], 0)) ∧
    (∀ name portions alt reg,
      grams_from_qty_text name (cs "banana boat") portions alt reg = (0, [], 0)) := by
  constructor
  · intro name text portions alt reg h1 h2 h3 h4 h5
    unfold grams_from_qty_text
    by_cases he : normText text = []
    · rw [if_pos he]
    · rw [if_neg he, h1, h2, if_neg h3, h4, h5]
  · intro name portions alt reg
    rfl

/-- C10 witness: the unrecognised pattern clause applied to the concrete
text "abc def", with every pattern failure hypothesis discharged by
evaluation. -/
theorem unrecognized_text_zero_witness :
    grams_from_qty_text (cs "Food") (cs "abc def") [] noAlt noReg = (0, [], 0) :=
  unrecognized_text_zero.1 (cs "Food") (cs "abc def") [] noAlt noReg
    rfl rfl (by decide) rfl rfl
